import Mathlib

/-!
# Sandy Snow Globe (Vulkan) — verification of the particle / procedural-geometry core

Shallow embedding of the particle system (`ParticleSystem.h`, `Particle.h`),
the procedural mesh generators (`MeshGenerator.cpp` / `TextureManager.h` blob)
and the cactus generator (`Cactus.cpp` / `Cactus.h`).

Modelling conventions:
* IEEE `float` arithmetic is modelled by exact rationals (`ℚ`); every claim
  settled here is about structure (counts, ordering, clamping, guards) or
  about the exact arithmetic expressions of the source, not about rounding.
* `std::sin`, `std::cos`, `std::sqrt` and `glm::pi` have no exact rational
  counterpart; the mesh generators take them as function parameters
  (`sinq`, `cosq`, `sqrtq`, `piq`).  All theorems below hold for every
  choice of these parameters.
* The PRNG (`std::mt19937` through `dist`) is modelled by an arbitrary
  stream `rand : ℕ → ℚ` of draws together with a cursor that advances once
  per `dist(rng)` call, exactly where the source calls it.
* `std::vector` is a Lean `List`; an in-place `for` loop that rewrites each
  element is a `List.map`; a loop with early `return` is structural
  recursion on the list.
-/

namespace SandySnowGlobe

/-- glm::vec2 over exact rationals. -/
structure Vec2 where
  x : ℚ
  y : ℚ
deriving DecidableEq, Repr

/-- glm::vec3 over exact rationals. -/
structure Vec3 where
  x : ℚ
  y : ℚ
  z : ℚ
deriving DecidableEq, Repr

/-- glm::vec4 over exact rationals. -/
structure Vec4 where
  x : ℚ
  y : ℚ
  z : ℚ
  w : ℚ
deriving DecidableEq, Repr

instance : Add Vec3 := ⟨fun a b => ⟨a.x + b.x, a.y + b.y, a.z + b.z⟩⟩

instance : Sub Vec3 := ⟨fun a b => ⟨a.x - b.x, a.y - b.y, a.z - b.z⟩⟩

instance : HMul Vec3 ℚ Vec3 := ⟨fun a c => ⟨a.x * c, a.y * c, a.z * c⟩⟩

instance : HMul ℚ Vec3 Vec3 := ⟨fun c a => ⟨c * a.x, c * a.y, c * a.z⟩⟩

instance : Add Vec4 := ⟨fun a b => ⟨a.x + b.x, a.y + b.y, a.z + b.z, a.w + b.w⟩⟩

instance : Sub Vec4 := ⟨fun a b => ⟨a.x - b.x, a.y - b.y, a.z - b.z, a.w - b.w⟩⟩

instance : HMul ℚ Vec4 Vec4 := ⟨fun c a => ⟨c * a.x, c * a.y, c * a.z, c * a.w⟩⟩

/-- glm::mix for scalars: `x + a * (y - x)` (exact linear interpolation). -/
def mixQ (x y a : ℚ) : ℚ := x + a * (y - x)

/-- glm::mix on vec4, componentwise. -/
def mixV4 (x y : Vec4) (a : ℚ) : Vec4 := x + a * (y - x)

/-- glm::clamp for scalars: `min(max(x, lo), hi)`. -/
def clampQ (x lo hi : ℚ) : ℚ := min (max x lo) hi

/-- `Particle` (Particle.h): per-particle simulation state. -/
structure Particle where
  position : Vec3
  velocity : Vec3
  color : Vec4
  life : ℚ
  maxLife : ℚ
  size : ℚ
deriving DecidableEq, Repr

/-- `Particle::isAlive`: `life > 0.0f`. -/
def Particle.isAlive (p : Particle) : Bool := decide (0 < p.life)

/-- `Particle::getAge`: `maxLife > 0.0f ? 1.0f - (life / maxLife) : 1.0f`. -/
def Particle.getAge (p : Particle) : ℚ :=
  if 0 < p.maxLife then 1 - p.life / p.maxLife else 1

/-- A value-initialized `Particle` (what `std::vector::resize` appends):
all members zero. -/
def Particle.zero : Particle :=
  { position := ⟨0, 0, 0⟩, velocity := ⟨0, 0, 0⟩, color := ⟨0, 0, 0, 0⟩,
    life := 0, maxLife := 0, size := 0 }

/-- `ParticleVertex` (Particle.h): billboard-quad vertex sent to the GPU. -/
structure ParticleVertex where
  position : Vec3
  color : Vec4
  texCoord : Vec2
  size : ℚ
deriving DecidableEq, Repr

/-- `ParticleSystem::EmitterConfig`.  `maxParticles` is a pool size handed to
`std::vector::resize`, modelled as a natural number. -/
structure EmitterConfig where
  position : Vec3 := ⟨0, 0, 0⟩
  positionVariance : Vec3 := ⟨1, 1, 1⟩
  velocity : Vec3 := ⟨0, 5, 0⟩
  velocityVariance : Vec3 := ⟨1, 1, 1⟩
  startColor : Vec4 := ⟨1, 1, 1, 1⟩
  endColor : Vec4 := ⟨1, 1, 1, 0⟩
  startSize : ℚ := 1
  endSize : ℚ := 0.1
  minLife : ℚ := 1
  maxLife : ℚ := 3
  emissionRate : ℚ := 50
  maxParticles : ℕ := 1000
  gravity : Vec3 := ⟨0, -9.81, 0⟩
  drag : ℚ := 0.1
  looping : Bool := true
  duration : ℚ := 0
deriving DecidableEq, Repr

/-- `ParticleSystem::EffectType`. -/
inductive EffectType where
  | Fire
  | Smoke
  | Sand
  | Snow
  | Sparks
deriving DecidableEq, Repr

/-- `ParticleSystem::getPreset`. -/
def getPreset (type : EffectType) : EmitterConfig :=
  match type with
  | .Fire =>
    { velocity := ⟨0, 8, 0⟩, velocityVariance := ⟨2, 3, 2⟩,
      positionVariance := ⟨0.5, 0.1, 0.5⟩,
      startColor := ⟨1, 0.6, 0.1, 1⟩, endColor := ⟨1, 0, 0, 0⟩,
      startSize := 1.5, endSize := 0.2, minLife := 0.5, maxLife := 1.5,
      gravity := ⟨0, 2, 0⟩, drag := 0.5, emissionRate := 80, maxParticles := 500 }
  | .Smoke =>
    { velocity := ⟨0, 3, 0⟩, velocityVariance := ⟨1, 1, 1⟩,
      positionVariance := ⟨0.3, 0, 0.3⟩,
      startColor := ⟨0.3, 0.3, 0.3, 0.8⟩, endColor := ⟨0.1, 0.1, 0.1, 0⟩,
      startSize := 0.5, endSize := 3, minLife := 2, maxLife := 4,
      gravity := ⟨0, 0.5, 0⟩, drag := 0.2, emissionRate := 20, maxParticles := 200 }
  | .Sand =>
    { velocity := ⟨15, 2, 0⟩, velocityVariance := ⟨5, 2, 3⟩,
      positionVariance := ⟨50, 0.5, 50⟩,
      startColor := ⟨0.76, 0.70, 0.50, 0.6⟩, endColor := ⟨0.76, 0.70, 0.50, 0⟩,
      startSize := 0.3, endSize := 0.1, minLife := 2, maxLife := 5,
      gravity := ⟨0, -2, 0⟩, drag := 0.1, emissionRate := 100, maxParticles := 1000 }
  | .Snow =>
    { velocity := ⟨0, -3, 0⟩, velocityVariance := ⟨2, 1, 2⟩,
      positionVariance := ⟨80, 50, 80⟩,
      startColor := ⟨1, 1, 1, 0.9⟩, endColor := ⟨1, 1, 1, 0⟩,
      startSize := 0.3, endSize := 0.2, minLife := 5, maxLife := 10,
      gravity := ⟨0, -1, 0⟩, drag := 0.3, emissionRate := 50, maxParticles := 800 }
  | .Sparks =>
    { velocity := ⟨0, 15, 0⟩, velocityVariance := ⟨8, 5, 8⟩,
      positionVariance := ⟨0.2, 0, 0.2⟩,
      startColor := ⟨1, 0.9, 0.3, 1⟩, endColor := ⟨1, 0.3, 0, 0⟩,
      startSize := 0.2, endSize := 0.05, minLife := 0.3, maxLife := 1,
      gravity := ⟨0, -15, 0⟩, drag := 0.05, emissionRate := 150, maxParticles := 300 }

/-- Mutable state of one `ParticleSystem`.  The scratch vertex/index buffers
are cleared and fully rebuilt by every `generateVertices` call, so they are
modelled as the pure output of `generateVertices` rather than as state.
`rngCursor` is the position in the abstract draw stream `rand : ℕ → ℚ`;
it advances once per `dist(rng)` call. -/
structure PSState where
  particles : List Particle
  config : EmitterConfig
  active : Bool
  emissionAccumulator : ℚ
  systemTime : ℚ
  rngCursor : ℕ
deriving DecidableEq, Repr

/-- A freshly constructed `ParticleSystem()`: empty pool, inactive,
zero accumulator and time. -/
def PSState.fresh : PSState :=
  { particles := [], config := {}, active := false,
    emissionAccumulator := 0, systemTime := 0, rngCursor := 0 }

/-- `ParticleSystem::randomRange`: `min + dist(rng) * (max - min)`, with the
draw `r` supplied by the abstract stream. -/
def randomRange (lo hi r : ℚ) : ℚ := lo + r * (hi - lo)

/-- `std::vector::resize` on the particle pool: keep the first `n` elements,
append value-initialized (all-zero) particles as needed. -/
def listResize (ps : List Particle) (n : ℕ) : List Particle :=
  ps.take n ++ List.replicate (n - ps.length) Particle.zero

/-- `ParticleSystem::init(const EmitterConfig&)`: store the config, resize the
pool, kill every slot, activate, zero `systemTime`.  (`vertices.reserve` /
`indices.reserve` have no observable effect and are omitted.)
`emissionAccumulator` and the RNG state are NOT touched. -/
def PSState.init (st : PSState) (cfg : EmitterConfig) : PSState :=
  { st with
    config := cfg,
    particles := (listResize st.particles cfg.maxParticles).map
      (fun p => { p with life := 0 }),
    active := true,
    systemTime := 0 }

/-- `ParticleSystem::init(EffectType, const glm::vec3&)`: load the preset,
overwrite its position, then proceed exactly as the config overload. -/
def PSState.initPreset (st : PSState) (type : EffectType) (pos : Vec3) : PSState :=
  st.init { getPreset type with position := pos }

/-- `ParticleSystem::start`. -/
def PSState.start (st : PSState) : PSState := { st with active := true }

/-- `ParticleSystem::stop`. -/
def PSState.stop (st : PSState) : PSState := { st with active := false }

/-- The particle written by `ParticleSystem::emitParticle` into a recycled
slot, drawing 7 uniform values `rand k, …, rand (k+6)`:
3 for position, 3 for velocity, 1 for life (also stored as `maxLife`). -/
def emittedParticle (cfg : EmitterConfig) (rand : ℕ → ℚ) (k : ℕ) : Particle :=
  let life := randomRange cfg.minLife cfg.maxLife (rand (k + 6))
  { position := cfg.position +
      ⟨randomRange (-cfg.positionVariance.x) cfg.positionVariance.x (rand k),
       randomRange (-cfg.positionVariance.y) cfg.positionVariance.y (rand (k + 1)),
       randomRange (-cfg.positionVariance.z) cfg.positionVariance.z (rand (k + 2))⟩,
    velocity := cfg.velocity +
      ⟨randomRange (-cfg.velocityVariance.x) cfg.velocityVariance.x (rand (k + 3)),
       randomRange (-cfg.velocityVariance.y) cfg.velocityVariance.y (rand (k + 4)),
       randomRange (-cfg.velocityVariance.z) cfg.velocityVariance.z (rand (k + 5))⟩,
    life := life, maxLife := life,
    color := cfg.startColor, size := cfg.startSize }

/-- Body of `ParticleSystem::emitParticle` on the pool and the RNG cursor:
scan for the first dead slot, refill it and stop (early `return`); if every
slot is alive the pool is left untouched (pool exhausted, emission dropped). -/
def emitScan (cfg : EmitterConfig) (rand : ℕ → ℚ) :
    List Particle → ℕ → List Particle × ℕ
  | [], k => ([], k)
  | p :: ps, k =>
    if p.isAlive then
      let rest := emitScan cfg rand ps k
      (p :: rest.1, rest.2)
    else (emittedParticle cfg rand k :: ps, k + 7)

/-- `ParticleSystem::emitParticle` as a state transformer. -/
def PSState.emitParticle (st : PSState) (rand : ℕ → ℚ) : PSState :=
  let res := emitScan st.config rand st.particles st.rngCursor
  { st with particles := res.1, rngCursor := res.2 }

/-- The emission `while` loop of `ParticleSystem::update`:
`while (emissionAccumulator >= 1.0f) { emitParticle(); emissionAccumulator -= 1.0f; }`
acting on the accumulator, the pool and the RNG cursor. -/
def emissionLoop (cfg : EmitterConfig) (rand : ℕ → ℚ) (acc : ℚ)
    (ps : List Particle) (k : ℕ) : ℚ × List Particle × ℕ :=
  if h : 1 ≤ acc then
    let res := emitScan cfg rand ps k
    emissionLoop cfg rand (acc - 1) res.1 res.2
  else (acc, ps, k)
termination_by ⌈acc⌉.toNat
decreasing_by
  have h1 : (1 : ℤ) ≤ ⌈acc⌉ := by
    exact_mod_cast Int.le_ceil_iff.mpr (by push_cast; linarith)
  have h2 : ⌈acc - 1⌉ = ⌈acc⌉ - 1 := by
    simp [Int.ceil_sub_int acc 1]
  omega

/-- Per-particle physics body of `ParticleSystem::update`: dead particles are
skipped (`continue`), alive ones get gravity, drag, integration, life
decrement, then age-based color/size interpolation — in exactly the
source's order. -/
def stepParticle (cfg : EmitterConfig) (dt : ℚ) (p : Particle) : Particle :=
  if p.isAlive then
    let v1 := p.velocity + cfg.gravity * dt
    let v2 := v1 * (1 - cfg.drag * dt)
    let pos := p.position + v2 * dt
    let p1 : Particle := { p with velocity := v2, position := pos, life := p.life - dt }
    let age := p1.getAge
    { p1 with
      color := mixV4 cfg.startColor cfg.endColor age,
      size := mixQ cfg.startSize cfg.endSize age }
  else p

/-- The `for (auto& p : particles)` physics loop of `ParticleSystem::update`. -/
def updateParticles (cfg : EmitterConfig) (dt : ℚ) (ps : List Particle) : List Particle :=
  ps.map (stepParticle cfg dt)

/-- `ParticleSystem::getAliveCount`: slots with `life > 0`. -/
def aliveCount (ps : List Particle) : ℕ := ps.countP (fun p => p.isAlive)

/-- `ParticleSystem::update(float deltaTime)`:
1. idle early-out when inactive with zero alive particles;
2. advance `systemTime`;
3. auto-deactivate a finite non-looping effect past its duration;
4. if (still) active, accumulate `emissionRate·dt` and run the emission loop;
5. integrate every particle. -/
def PSState.update (st : PSState) (rand : ℕ → ℚ) (dt : ℚ) : PSState :=
  if st.active = false ∧ aliveCount st.particles = 0 then st
  else
    let t := st.systemTime + dt
    let act : Bool :=
      if st.config.looping = false ∧ 0 < st.config.duration ∧ st.config.duration < t
      then false else st.active
    let res :=
      if act then
        emissionLoop st.config rand
          (st.emissionAccumulator + st.config.emissionRate * dt)
          st.particles st.rngCursor
      else (st.emissionAccumulator, st.particles, st.rngCursor)
    { particles := updateParticles st.config dt res.2.1,
      config := st.config,
      active := act,
      emissionAccumulator := res.1,
      systemTime := t,
      rngCursor := res.2.2 }

/-- The 4 billboard corner vertices one alive particle contributes in
`ParticleSystem::generateVertices`. -/
def quadVertices (cameraRight cameraUp : Vec3) (p : Particle) : List ParticleVertex :=
  let right := cameraRight * p.size
  let up := cameraUp * p.size
  [{ position := p.position - right - up, color := p.color, texCoord := ⟨0, 0⟩, size := p.size },
   { position := p.position + right - up, color := p.color, texCoord := ⟨1, 0⟩, size := p.size },
   { position := p.position + right + up, color := p.color, texCoord := ⟨1, 1⟩, size := p.size },
   { position := p.position - right + up, color := p.color, texCoord := ⟨0, 1⟩, size := p.size }]

/-- The vertex/index building loop of `ParticleSystem::generateVertices`,
carrying the running `vertexIndex` counter (incremented by 4 per alive
particle). -/
def genVerts (cameraRight cameraUp : Vec3) :
    List Particle → ℕ → List ParticleVertex × List ℕ
  | [], _ => ([], [])
  | p :: ps, vi =>
    if p.isAlive then
      let rest := genVerts cameraRight cameraUp ps (vi + 4)
      (quadVertices cameraRight cameraUp p ++ rest.1,
       [vi, vi + 1, vi + 2, vi, vi + 2, vi + 3] ++ rest.2)
    else genVerts cameraRight cameraUp ps vi

/-- `ParticleSystem::generateVertices(cameraRight, cameraUp)`: both scratch
buffers are cleared and rebuilt from the pool, so the result is a pure
function of the pool. -/
def generateVertices (cameraRight cameraUp : Vec3) (ps : List Particle) :
    List ParticleVertex × List ℕ :=
  genVerts cameraRight cameraUp ps 0

/-- `Vertex` (Vertex.h): position, normal, UV, color. -/
structure Vertex where
  position : Vec3
  normal : Vec3
  texCoord : Vec2
  color : Vec3
deriving DecidableEq, Repr

/-- `Mesh` (Mesh.h): vertex array plus triangle-index array.  The derived
axis-aligned bounds are recomputed from the vertices and carry no extra
information, so they are not stored here. -/
structure Mesh where
  vertices : List Vertex
  indices : List ℕ
deriving DecidableEq, Repr

/-- `MeshGenerator::createSphere` (UV sphere): `(rings+1)*(segments+1)`
latitude/longitude grid vertices, two triangles per grid cell.
`sinq`, `cosq`, `piq` stand for `std::sin`, `std::cos`, `glm::pi`. -/
def createSphere (sinq cosq : ℚ → ℚ) (piq radius : ℚ) (segments rings : ℕ)
    (color : Vec3) : Mesh :=
  let vertices := (List.range (rings + 1)).flatMap (fun ring =>
    (List.range (segments + 1)).map (fun (segment : ℕ) =>
      let phi := piq * (ring : ℚ) / (rings : ℚ)
      let sinPhi := sinq phi
      let cosPhi := cosq phi
      let theta := 2 * piq * (segment : ℚ) / (segments : ℚ)
      let normal : Vec3 := ⟨sinPhi * cosq theta, cosPhi, sinPhi * sinq theta⟩
      { position := normal * radius, normal := normal,
        texCoord := ⟨(segment : ℚ) / (segments : ℚ), (ring : ℚ) / (rings : ℚ)⟩,
        color := color }))
  let indices := (List.range rings).flatMap (fun ring =>
    (List.range segments).flatMap (fun segment =>
      let current := ring * (segments + 1) + segment
      let next := current + segments + 1
      [current, next, current + 1, current + 1, next, next + 1]))
  ⟨vertices, indices⟩

/-- `MeshGenerator::createCylinder`: two side rings of `segments+1` vertices,
then a top cap (center + rim) and a bottom cap (center + rim), with the cap
fans indexed from the recorded center indices. -/
def createCylinder (sinq cosq : ℚ → ℚ) (piq radius height : ℚ) (segments : ℕ)
    (color : Vec3) : Mesh :=
  let halfHeight := height * 0.5
  let sideVerts := (List.range 2).flatMap (fun i =>
    (List.range (segments + 1)).map (fun (seg : ℕ) =>
      let y := if i = 0 then -halfHeight else halfHeight
      let theta := 2 * piq * (seg : ℚ) / (segments : ℚ)
      let cosTheta := cosq theta
      let sinTheta := sinq theta
      { position := ⟨radius * cosTheta, y, radius * sinTheta⟩,
        normal := ⟨cosTheta, 0, sinTheta⟩,
        texCoord := ⟨(seg : ℚ) / (segments : ℚ), (i : ℚ)⟩,
        color := color }))
  let sideInds := (List.range segments).flatMap (fun seg =>
    [seg, seg + 1, seg + segments + 1,
     seg + segments + 1, seg + 1, seg + segments + 1 + 1])
  let topCenterIndex := sideVerts.length
  let topCenter : Vertex :=
    { position := ⟨0, halfHeight, 0⟩, normal := ⟨0, 1, 0⟩,
      texCoord := ⟨0.5, 0.5⟩, color := color }
  let topRim := (List.range (segments + 1)).map (fun (seg : ℕ) =>
    let theta := 2 * piq * (seg : ℚ) / (segments : ℚ)
    let cosTheta := cosq theta
    let sinTheta := sinq theta
    { position := ⟨radius * cosTheta, halfHeight, radius * sinTheta⟩,
      normal := ⟨0, 1, 0⟩,
      texCoord := ⟨0.5 + 0.5 * cosTheta, 0.5 + 0.5 * sinTheta⟩,
      color := color })
  let topInds := (List.range segments).flatMap (fun seg =>
    [topCenterIndex, topCenterIndex + 1 + seg + 1, topCenterIndex + 1 + seg])
  let bottomCenterIndex := (sideVerts ++ topCenter :: topRim).length
  let bottomCenter : Vertex :=
    { position := ⟨0, -halfHeight, 0⟩, normal := ⟨0, -1, 0⟩,
      texCoord := ⟨0.5, 0.5⟩, color := color }
  let bottomRim := (List.range (segments + 1)).map (fun (seg : ℕ) =>
    let theta := 2 * piq * (seg : ℚ) / (segments : ℚ)
    let cosTheta := cosq theta
    let sinTheta := sinq theta
    { position := ⟨radius * cosTheta, -halfHeight, radius * sinTheta⟩,
      normal := ⟨0, -1, 0⟩,
      texCoord := ⟨0.5 + 0.5 * cosTheta, 0.5 + 0.5 * sinTheta⟩,
      color := color })
  let bottomInds := (List.range segments).flatMap (fun seg =>
    [bottomCenterIndex, bottomCenterIndex + 1 + seg, bottomCenterIndex + 1 + seg + 1])
  ⟨sideVerts ++ topCenter :: topRim ++ bottomCenter :: bottomRim,
   sideInds ++ topInds ++ bottomInds⟩

/-! ### glm matrix machinery used by `Cactus::generateArm`
Column-major 4×4 and 3×3 rational matrices, with `glm::translate`,
`glm::rotate` (the axis is normalized through the abstract `sqrtq`),
`glm::inverse`/`glm::transpose` on the upper-left 3×3 block, and
`glm::normalize`. -/

structure Mat4 where
  c0 : Vec4
  c1 : Vec4
  c2 : Vec4
  c3 : Vec4
deriving DecidableEq, Repr

structure Mat3 where
  c0 : Vec3
  c1 : Vec3
  c2 : Vec3
deriving DecidableEq, Repr

def Mat4.identity : Mat4 :=
  ⟨⟨1, 0, 0, 0⟩, ⟨0, 1, 0, 0⟩, ⟨0, 0, 1, 0⟩, ⟨0, 0, 0, 1⟩⟩

/-- `m * v` for a column vector `v`. -/
def Mat4.mulVec (m : Mat4) (v : Vec4) : Vec4 :=
  v.x * m.c0 + v.y * m.c1 + v.z * m.c2 + v.w * m.c3

def Mat3.mulVec (m : Mat3) (v : Vec3) : Vec3 :=
  v.x * m.c0 + v.y * m.c1 + v.z * m.c2

/-- glm::dot on vec3. -/
def dot3 (a b : Vec3) : ℚ := a.x * b.x + a.y * b.y + a.z * b.z

/-- glm::normalize, with `sqrtq` standing for the square root. -/
def normalize3 (sqrtq : ℚ → ℚ) (v : Vec3) : Vec3 :=
  (1 / sqrtq (dot3 v v)) * v

/-- glm::translate: post-multiply by a translation. -/
def Mat4.translate (m : Mat4) (v : Vec3) : Mat4 :=
  { m with c3 := v.x * m.c0 + v.y * m.c1 + v.z * m.c2 + m.c3 }

/-- glm::rotate: post-multiply by an axis-angle rotation (glm normalizes the
axis; `sinq`/`cosq`/`sqrtq` stand for the float math functions). -/
def Mat4.rotate (sinq cosq sqrtq : ℚ → ℚ) (m : Mat4) (angle : ℚ) (v : Vec3) : Mat4 :=
  let c := cosq angle
  let s := sinq angle
  let axis := normalize3 sqrtq v
  let temp := (1 - c) * axis
  let r00 := c + temp.x * axis.x
  let r01 := temp.x * axis.y + s * axis.z
  let r02 := temp.x * axis.z - s * axis.y
  let r10 := temp.y * axis.x - s * axis.z
  let r11 := c + temp.y * axis.y
  let r12 := temp.y * axis.z + s * axis.x
  let r20 := temp.z * axis.x + s * axis.y
  let r21 := temp.z * axis.y - s * axis.x
  let r22 := c + temp.z * axis.z
  { c0 := r00 * m.c0 + r01 * m.c1 + r02 * m.c2,
    c1 := r10 * m.c0 + r11 * m.c1 + r12 * m.c2,
    c2 := r20 * m.c0 + r21 * m.c1 + r22 * m.c2,
    c3 := m.c3 }

/-- glm::mat3(mat4): upper-left 3×3 block. -/
def Mat4.toMat3 (m : Mat4) : Mat3 :=
  ⟨⟨m.c0.x, m.c0.y, m.c0.z⟩, ⟨m.c1.x, m.c1.y, m.c1.z⟩, ⟨m.c2.x, m.c2.y, m.c2.z⟩⟩

def Mat3.transpose (m : Mat3) : Mat3 :=
  ⟨⟨m.c0.x, m.c1.x, m.c2.x⟩, ⟨m.c0.y, m.c1.y, m.c2.y⟩, ⟨m.c0.z, m.c1.z, m.c2.z⟩⟩

/-- glm::inverse on mat3 (adjugate over determinant; exact in ℚ). -/
def Mat3.inverse (m : Mat3) : Mat3 :=
  let det :=
    m.c0.x * (m.c1.y * m.c2.z - m.c2.y * m.c1.z)
    - m.c1.x * (m.c0.y * m.c2.z - m.c2.y * m.c0.z)
    + m.c2.x * (m.c0.y * m.c1.z - m.c1.y * m.c0.z)
  let invDet := 1 / det
  ⟨⟨(m.c1.y * m.c2.z - m.c2.y * m.c1.z) * invDet,
    -(m.c0.y * m.c2.z - m.c2.y * m.c0.z) * invDet,
    (m.c0.y * m.c1.z - m.c1.y * m.c0.z) * invDet⟩,
   ⟨-(m.c1.x * m.c2.z - m.c2.x * m.c1.z) * invDet,
    (m.c0.x * m.c2.z - m.c2.x * m.c0.z) * invDet,
    -(m.c0.x * m.c1.z - m.c1.x * m.c0.z) * invDet⟩,
   ⟨(m.c1.x * m.c2.y - m.c2.x * m.c1.y) * invDet,
    -(m.c0.x * m.c2.y - m.c2.x * m.c0.y) * invDet,
    (m.c0.x * m.c1.y - m.c1.x * m.c0.y) * invDet⟩⟩

/-- glm::radians. -/
def radiansQ (piq degrees : ℚ) : ℚ := degrees * piq / 180

/-- Apply a mat4 to a vertex position (w = 1) and the derived normal matrix
to its normal, as the two transform loops in `Cactus.cpp` do. -/
def transformVertex (sqrtq : ℚ → ℚ) (m : Mat4) (v : Vertex) : Vertex :=
  let pos := m.mulVec ⟨v.position.x, v.position.y, v.position.z, 1⟩
  let normalMatrix := (m.toMat3.inverse).transpose
  { v with
    position := ⟨pos.x, pos.y, pos.z⟩,
    normal := normalize3 sqrtq (normalMatrix.mulVec v.normal) }

/-- `Cactus::Config`.  `numArms` is a loop bound (`0-4` per the header
comment), modelled as a natural number. -/
structure CactusConfig where
  position : Vec3 := ⟨0, 0, 0⟩
  height : ℚ := 5
  trunkRadius : ℚ := 0.5
  numArms : ℕ := 2
  armHeight : ℚ := 0.6
  color : Vec3 := ⟨0.2, 0.6, 0.2⟩
  segments : ℕ := 12
deriving DecidableEq, Repr

/-- A `Cactus` object: its config plus the mutable run-time state
(`m_growthFactor`, `m_isBurning`). -/
structure Cactus where
  config : CactusConfig
  growthFactor : ℚ := 1
  isBurning : Bool := false
deriving DecidableEq, Repr

/-- `Cactus::Cactus(const Config&)`: stores the config; `m_growthFactor`
starts at 1, `m_isBurning` at false. -/
def Cactus.fresh (cfg : CactusConfig) : Cactus := { config := cfg }

/-- `Cactus::grow`: `m_growthFactor = glm::clamp(m_growthFactor + amount, 0.1f, 4.0f)`. -/
def Cactus.grow (c : Cactus) (amount : ℚ) : Cactus :=
  { c with growthFactor := clampQ (c.growthFactor + amount) 0.1 4 }

/-- A sequence of `grow` calls. -/
def Cactus.growSeq (c : Cactus) (amounts : List ℚ) : Cactus :=
  amounts.foldl Cactus.grow c

/-- `Cactus::setGrowthFactor` (Cactus.h): stores the factor verbatim. -/
def Cactus.setGrowthFactor (c : Cactus) (factor : ℚ) : Cactus :=
  { c with growthFactor := factor }

/-- `Cactus::setBurning`. -/
def Cactus.setBurning (c : Cactus) (burning : Bool) : Cactus :=
  { c with isBurning := burning }

/-- `Cactus::generateArm(attachHeight, angle, armLength)`: a horizontal
elbow cylinder and a vertical upper-arm cylinder, each transformed into
place; the vertical section's indices are rebased by the vertex count of
the horizontal section. -/
def Cactus.generateArm (sinq cosq sqrtq : ℚ → ℚ) (piq : ℚ) (c : Cactus)
    (attachHeight angle armLength : ℚ) : Mesh :=
  let armRadius := c.config.trunkRadius * 0.6 * c.growthFactor
  let elbowLength := armLength * 0.5
  let horizontal := createCylinder sinq cosq piq armRadius elbowLength
    c.config.segments c.config.color
  let vertical := createCylinder sinq cosq piq armRadius (armLength * 0.6)
    c.config.segments c.config.color
  let transform :=
    ((((Mat4.identity.translate c.config.position).translate
        ⟨0, attachHeight, 0⟩).rotate sinq cosq sqrtq angle ⟨0, 1, 0⟩).rotate
        sinq cosq sqrtq (radiansQ piq 90) ⟨0, 0, 1⟩).translate
        ⟨0, elbowLength * 0.5 + c.config.trunkRadius, 0⟩
  let armVerts1 := horizontal.vertices.map (transformVertex sqrtq transform)
  let armInds1 := horizontal.indices
  let vertTransform :=
    (((Mat4.identity.translate c.config.position).translate
        ⟨0, attachHeight, 0⟩).rotate sinq cosq sqrtq angle ⟨0, 1, 0⟩).translate
        ⟨elbowLength + c.config.trunkRadius, armLength * 0.3, 0⟩
  let indexOffset := armVerts1.length
  let armVerts2 := vertical.vertices.map (transformVertex sqrtq vertTransform)
  let armInds2 := vertical.indices.map (· + indexOffset)
  ⟨armVerts1 ++ armVerts2, armInds1 ++ armInds2⟩

/-- One iteration of the arm loop in `Cactus::generateMesh`: generate arm
`i`, append its vertices, and append its indices rebased by the combined
vertex count at the moment of concatenation. -/
def Cactus.armStep (sinq cosq sqrtq : ℚ → ℚ) (piq : ℚ) (c : Cactus)
    (actualHeight : ℚ) (acc : Mesh) (i : ℕ) : Mesh :=
  let angle := ((i : ℚ) / (c.config.numArms : ℚ)) * (2 * piq) + piq * 0.25
  let attachHeight := actualHeight * c.config.armHeight
  let armLength := actualHeight * 0.4
  let arm := c.generateArm sinq cosq sqrtq piq attachHeight angle armLength
  let indexOffset := acc.vertices.length
  ⟨acc.vertices ++ arm.vertices, acc.indices ++ arm.indices.map (· + indexOffset)⟩

/-- `Cactus::generateMesh`: trunk cylinder scaled by the growth factor and
moved to sit on its base at the world position, then `numArms` arms appended
with index rebasing. -/
def Cactus.generateMesh (sinq cosq sqrtq : ℚ → ℚ) (piq : ℚ) (c : Cactus) : Mesh :=
  let actualHeight := c.config.height * c.growthFactor
  let actualRadius := c.config.trunkRadius * c.growthFactor
  let trunk := createCylinder sinq cosq piq actualRadius actualHeight
    c.config.segments c.config.color
  let trunkVerts := trunk.vertices.map (fun v =>
    { v with position :=
        ⟨v.position.x, v.position.y + actualHeight * 0.5, v.position.z⟩ +
          c.config.position })
  (List.range c.config.numArms).foldl
    (Cactus.armStep sinq cosq sqrtq piq c actualHeight)
    ⟨trunkVerts, trunk.indices⟩

/-- States of one `ParticleSystem` reachable from construction followed by
`init(cfg)` and then any sequence of `update(dt)`, `start()`, `stop()`
calls, all sharing the draw stream `rand`. -/
inductive Reachable (rand : ℕ → ℚ) (cfg : EmitterConfig) : PSState → Prop
  | init : Reachable rand cfg (PSState.fresh.init cfg)
  | update (st : PSState) (dt : ℚ) :
      Reachable rand cfg st → Reachable rand cfg (st.update rand dt)
  | start (st : PSState) :
      Reachable rand cfg st → Reachable rand cfg st.start
  | stop (st : PSState) :
      Reachable rand cfg st → Reachable rand cfg st.stop

/-- The index pattern `generateVertices` produces: per alive particle `j`
(base `b = 4·j`), the two triangles `(b, b+1, b+2)` and `(b, b+2, b+3)`. -/
def billboardIndices (n : ℕ) : List ℕ :=
  (List.range n).flatMap
    (fun j => [4 * j, 4 * j + 1, 4 * j + 2, 4 * j, 4 * j + 2, 4 * j + 3])

/-- Concrete config used to instantiate the pool-conservation theorem. -/
def zeroRateConfig : EmitterConfig := { emissionRate := 0, maxParticles := 4 }

/-- A concrete particle that is alive. -/
def aliveParticle : Particle := { Particle.zero with life := 1 }

/-- A concrete system whose pool is fully alive (pool exhausted). -/
def fullPool : PSState :=
  { particles := [aliveParticle], config := {}, active := true,
    emissionAccumulator := 0, systemTime := 0, rngCursor := 0 }

/-- A concrete small cactus (one segment, one arm). -/
def cactusSample : Cactus := Cactus.fresh { segments := 1, numArms := 1 }

/-! ## Theorems -/

/-- C6: `getAge()` returns exactly 1 when `maxLife == 0` (the division is
guarded away), exactly 0 when `maxLife > 0` and `life == maxLife`, and
`1 - life/maxLife` whenever `maxLife > 0`. -/
theorem age_boundary_and_division_guard (p : Particle) :
    (p.maxLife = 0 → p.getAge = 1) ∧
    (0 < p.maxLife → p.life = p.maxLife → p.getAge = 0) ∧
    (0 < p.maxLife → p.getAge = 1 - p.life / p.maxLife) := by
  refine ⟨fun h => ?_, fun h hl => ?_, fun h => ?_⟩
  · simp [Particle.getAge, h]
  · simp [Particle.getAge, h, hl, div_self (ne_of_gt h)]
  · simp [Particle.getAge, h]

/-- C7: a freshly constructed `Cactus` has `growthFactor = 1`; after any
sequence of `grow` calls, the factor after each call lies in `[0.1, 4.0]`;
and each `grow(x)` sets the factor to `clamp(previous + x, 0.1, 4.0)` and
changes nothing else (config and burning flag untouched, no geometry). -/
theorem growth_clamp (cfg : CactusConfig) (amounts : List ℚ) (x : ℚ) :
    (Cactus.fresh cfg).growthFactor = 1 ∧
    0.1 ≤ (((Cactus.fresh cfg).growSeq amounts).grow x).growthFactor ∧
    (((Cactus.fresh cfg).growSeq amounts).grow x).growthFactor ≤ 4 ∧
    ∀ c : Cactus,
      c.grow x = { c with growthFactor := clampQ (c.growthFactor + x) 0.1 4 } := by
  refine ⟨rfl, ?_, ?_, fun c => rfl⟩
  · exact le_min (le_max_right _ _) (by norm_num)
  · exact min_le_right _ _

/-- C2: the per-particle loop of `update(dt)` maps every alive particle to
the state obtained by, in order: velocity ← (velocity + gravity·dt)·(1 − drag·dt);
position ← position + newVelocity·dt; life ← life − dt; age recomputed from
the decremented life; color/size ← lerp by that age.  Dead particles are
skipped unchanged. -/
theorem per_frame_physics_integration (cfg : EmitterConfig) (dt : ℚ)
    (ps : List Particle) :
    updateParticles cfg dt ps = ps.map (fun p =>
      if p.isAlive then
        let newVelocity := (p.velocity + cfg.gravity * dt) * (1 - cfg.drag * dt)
        let newLife := p.life - dt
        let age : ℚ := if 0 < p.maxLife then 1 - newLife / p.maxLife else 1
        { position := p.position + newVelocity * dt,
          velocity := newVelocity,
          color := mixV4 cfg.startColor cfg.endColor age,
          life := newLife,
          maxLife := p.maxLife,
          size := mixQ cfg.startSize cfg.endSize age }
      else p) := rfl

/-- Scanning a pool with no dead slot changes nothing and draws nothing. -/
theorem emitScan_all_alive (cfg : EmitterConfig) (rand : ℕ → ℚ) :
    ∀ (ps : List Particle) (k : ℕ), (∀ p ∈ ps, p.isAlive = true) →
      emitScan cfg rand ps k = (ps, k) := by
  intro ps
  induction ps with
  | nil => intro k _; rfl
  | cons p tl ih =>
    intro k h
    have hp : p.isAlive = true := h p (by simp)
    have ht := ih k (fun q hq => h q (by simp [hq]))
    simp [emitScan, hp, ht]

/-- C8: when every slot of the pool is alive, `emitParticle` is a silent
no-op: it returns without touching any particle, the RNG, or any other
state, and raises no error (all operations of this subsystem are total
functions into plain states). -/
theorem pool_exhaustion_silent_drop (rand : ℕ → ℚ) (st : PSState)
    (h : ∀ p ∈ st.particles, p.isAlive = true) :
    st.emitParticle rand = st := by
  unfold PSState.emitParticle
  rw [emitScan_all_alive st.config rand st.particles st.rngCursor h]

/-- Witness for the pool-exhaustion theorem at a concrete fully-alive pool. -/
theorem pool_exhaustion_silent_drop_witness :
    fullPool.emitParticle (fun _ => 0) = fullPool :=
  pool_exhaustion_silent_drop (fun _ => 0) fullPool (by decide)

/-- The pool right after `init` has the config's size. -/
theorem init_particles_length (st : PSState) (cfg : EmitterConfig) :
    (st.init cfg).particles.length = cfg.maxParticles := by
  simp [PSState.init, listResize]
  omega

/-- C10: both `init` overloads zero `systemTime`, mark every pool slot dead,
and activate the system — but neither resets `emissionAccumulator`, so any
fractional emission credit survives re-initialization (the next `update`
reads the carried-over accumulator). -/
theorem init_resets_state_but_not_accumulator (st : PSState)
    (cfg : EmitterConfig) (type : EffectType) (pos : Vec3) :
    ((st.init cfg).systemTime = 0 ∧ (st.init cfg).active = true ∧
     (∀ p ∈ (st.init cfg).particles, p.isAlive = false) ∧
     (st.init cfg).particles.length = cfg.maxParticles ∧
     (st.init cfg).emissionAccumulator = st.emissionAccumulator) ∧
    ((st.initPreset type pos).systemTime = 0 ∧
     (st.initPreset type pos).active = true ∧
     (∀ p ∈ (st.initPreset type pos).particles, p.isAlive = false) ∧
     (st.initPreset type pos).emissionAccumulator = st.emissionAccumulator) := by
  have hdead : ∀ (c : EmitterConfig) (p : Particle),
      p ∈ (st.init c).particles → p.isAlive = false := by
    intro c p hp
    simp only [PSState.init, List.mem_map] at hp
    obtain ⟨q, _, rfl⟩ := hp
    simp [Particle.isAlive]
  refine ⟨⟨rfl, rfl, hdead cfg, init_particles_length st cfg, rfl⟩,
         ⟨rfl, rfl, hdead _, rfl⟩⟩

/-- flatMap by a constant-length function multiplies the length. -/
theorem length_flatMap_const {α β : Type*} (l : List α) (f : α → List β) (k : ℕ)
    (h : ∀ a ∈ l, (f a).length = k) : (l.flatMap f).length = l.length * k := by
  induction l with
  | nil => simp
  | cons a tl ih =>
    simp only [List.flatMap_cons, List.length_append, List.length_cons]
    rw [h a (by simp), ih (fun b hb => h b (by simp [hb]))]
    ring

theorem billboardIndices_succ (n : ℕ) :
    billboardIndices (n + 1) =
      [0, 1, 2, 0, 2, 3] ++ (billboardIndices n).map (· + 4) := by
  unfold billboardIndices
  rw [List.range_succ_eq_map, List.flatMap_cons, List.map_flatMap]
  simp only [Nat.mul_zero, Nat.zero_add, List.flatMap_map]
  refine congrArg _ (congrArg _ (funext fun a => ?_))
  simp only [List.map_cons, List.map_nil, Nat.succ_eq_add_one]
  refine congrArg₂ _ (by omega) (congrArg₂ _ (by omega) (congrArg₂ _ (by omega)
    (congrArg₂ _ (by omega) (congrArg₂ _ (by omega) (congrArg₂ _ (by omega) rfl)))))

theorem billboardIndices_length (n : ℕ) : (billboardIndices n).length = 6 * n := by
  induction n with
  | zero => rfl
  | succ m ih =>
    rw [billboardIndices_succ]
    simp [ih]
    omega

theorem billboardIndices_lt (n : ℕ) : ∀ i ∈ billboardIndices n, i < 4 * n := by
  intro i hi
  simp only [billboardIndices, List.mem_flatMap, List.mem_range] at hi
  obtain ⟨j, hj, hmem⟩ := hi
  simp only [List.mem_cons, List.not_mem_nil, or_false] at hmem
  rcases hmem with h | h | h | h | h <;> omega

theorem genVerts_vertices (cameraRight cameraUp : Vec3) :
    ∀ (ps : List Particle) (vi : ℕ),
      (genVerts cameraRight cameraUp ps vi).1 =
        (ps.filter (fun p => p.isAlive)).flatMap (quadVertices cameraRight cameraUp) := by
  intro ps
  induction ps with
  | nil => intro vi; rfl
  | cons p tl ih =>
    intro vi
    by_cases h : p.isAlive
    · simp [genVerts, h, List.filter_cons, ih]
    · simp [genVerts, h, List.filter_cons, ih]

theorem genVerts_indices (cameraRight cameraUp : Vec3) :
    ∀ (ps : List Particle) (vi : ℕ),
      (genVerts cameraRight cameraUp ps vi).2 =
        (billboardIndices (aliveCount ps)).map (· + vi) := by
  intro ps
  induction ps with
  | nil => intro vi; simp [genVerts, aliveCount, billboardIndices]
  | cons p tl ih =>
    intro vi
    by_cases h : p.isAlive
    · have hc : aliveCount (p :: tl) = aliveCount tl + 1 := by
        simp [aliveCount, List.countP_cons, h]
      rw [hc, billboardIndices_succ]
      simp only [genVerts, h, if_pos, ih, List.map_append, List.map_map]
      refine congrArg₂ _ ?_ ?_
      · simp only [List.map_cons, List.map_nil]
        refine congrArg₂ _ (by omega) (congrArg₂ _ (by omega) (congrArg₂ _ (by omega)
          (congrArg₂ _ (by omega) (congrArg₂ _ (by omega) (congrArg₂ _ (by omega) rfl)))))
      · refine List.map_congr_left fun a _ => ?_
        simp [Function.comp]
        omega
    · have hc : aliveCount (p :: tl) = aliveCount tl := by
        simp [aliveCount, List.countP_cons, h]
      rw [hc]
      simp only [genVerts, h]
      exact ih vi

/-- C3: `generateVertices` emits, per alive particle in pool order, exactly
the 4 billboard corners `position ∓ right ∓ up` (with `right/up` the camera
basis scaled by the particle's size) carrying the particle's color and size
and the 4 unit-square UVs, and per particle the triangles `(b,b+1,b+2)`,
`(b,b+2,b+3)` with base `b` advancing by 4; the buffers are pure functions
of the pool (rebuilt each call), with vertex count `4·aliveCount`, index
count `6·aliveCount`, and every index below the vertex count. -/
theorem billboard_buffer_generation (cameraRight cameraUp : Vec3)
    (ps : List Particle) :
    (generateVertices cameraRight cameraUp ps).1 =
      (ps.filter (fun p => p.isAlive)).flatMap (fun p =>
        [{ position := p.position - cameraRight * p.size - cameraUp * p.size,
           color := p.color, texCoord := ⟨0, 0⟩, size := p.size },
         { position := p.position + cameraRight * p.size - cameraUp * p.size,
           color := p.color, texCoord := ⟨1, 0⟩, size := p.size },
         { position := p.position + cameraRight * p.size + cameraUp * p.size,
           color := p.color, texCoord := ⟨1, 1⟩, size := p.size },
         { position := p.position - cameraRight * p.size + cameraUp * p.size,
           color := p.color, texCoord := ⟨0, 1⟩, size := p.size }]) ∧
    (generateVertices cameraRight cameraUp ps).2 =
      billboardIndices (aliveCount ps) ∧
    (generateVertices cameraRight cameraUp ps).1.length = 4 * aliveCount ps ∧
    (generateVertices cameraRight cameraUp ps).2.length = 6 * aliveCount ps ∧
    ∀ i ∈ (generateVertices cameraRight cameraUp ps).2,
      i < (generateVertices cameraRight cameraUp ps).1.length := by
  have hv := genVerts_vertices cameraRight cameraUp ps 0
  have hi := genVerts_indices cameraRight cameraUp ps 0
  have hi0 : (genVerts cameraRight cameraUp ps 0).2 =
      billboardIndices (aliveCount ps) := by
    rw [hi]
    simp
  have hvlen : (generateVertices cameraRight cameraUp ps).1.length =
      4 * aliveCount ps := by
    show (genVerts cameraRight cameraUp ps 0).1.length = _
    rw [hv, length_flatMap_const (ps.filter (fun p => p.isAlive))
      (quadVertices cameraRight cameraUp) 4 (fun a _ => rfl)]
    rw [aliveCount, List.countP_eq_length_filter]
    ring
  refine ⟨hv, hi0, hvlen, ?_, ?_⟩
  · show (genVerts cameraRight cameraUp ps 0).2.length = _
    rw [hi0, billboardIndices_length]
  · intro i himem
    rw [hvlen]
    refine billboardIndices_lt (aliveCount ps) i ?_
    rw [← hi0]
    exact himem

/-- C4: `createSphere` yields exactly `(rings+1)*(segments+1)` vertices and
`6*segments*rings` indices, every index strictly below the vertex count —
for every radius, color, and math-function interpretation. -/
theorem sphere_mesh_counts (sinq cosq : ℚ → ℚ) (piq radius : ℚ) (color : Vec3)
    (segments rings : ℕ) (_hs : 1 ≤ segments) (_hr : 1 ≤ rings) :
    (createSphere sinq cosq piq radius segments rings color).vertices.length =
      (rings + 1) * (segments + 1) ∧
    (createSphere sinq cosq piq radius segments rings color).indices.length =
      6 * segments * rings ∧
    ∀ i ∈ (createSphere sinq cosq piq radius segments rings color).indices,
      i < (rings + 1) * (segments + 1) := by
  refine ⟨?_, ?_, ?_⟩
  · simp only [createSphere]
    refine Eq.trans (length_flatMap_const _ _ (segments + 1) ?_) ?_
    · intro a _
      simp
    · simp [Nat.mul_comm]
  · simp only [createSphere]
    refine Eq.trans (length_flatMap_const _ _ (segments * 6) ?_) ?_
    · intro a _
      refine Eq.trans (length_flatMap_const _ _ 6 (fun b _ => rfl)) ?_
      simp
    · simp
      ring
  · intro i hi
    simp only [createSphere, List.mem_flatMap, List.mem_range, List.mem_cons,
      List.not_mem_nil, or_false] at hi
    obtain ⟨ring, hring, seg, hseg, hi⟩ := hi
    have key : ring * (segments + 1) + (segments + 1) ≤ rings * (segments + 1) := by
      calc ring * (segments + 1) + (segments + 1)
          = (ring + 1) * (segments + 1) := by ring
        _ ≤ rings * (segments + 1) := Nat.mul_le_mul_right _ hring
    have hgoal : (rings + 1) * (segments + 1) =
        rings * (segments + 1) + (segments + 1) := by ring
    rw [hgoal]
    rcases hi with h | h | h | h | h | h <;>
      · subst h
        omega

theorem createCylinder_vertices_length (sinq cosq : ℚ → ℚ) (piq radius height : ℚ)
    (segments : ℕ) (color : Vec3) :
    (createCylinder sinq cosq piq radius height segments color).vertices.length =
      4 * segments + 6 := by
  simp only [createCylinder, show List.range 2 = [0, 1] from rfl,
    List.flatMap_cons, List.flatMap_nil, List.length_append, List.length_map,
    List.length_range, List.length_cons, List.append_nil]
  omega

theorem createCylinder_indices_lt (sinq cosq : ℚ → ℚ) (piq radius height : ℚ)
    (segments : ℕ) (color : Vec3) :
    ∀ i ∈ (createCylinder sinq cosq piq radius height segments color).indices,
      i < 4 * segments + 6 := by
  intro i hi
  simp only [createCylinder, show List.range 2 = [0, 1] from rfl,
    List.flatMap_cons, List.flatMap_nil, List.length_append, List.length_map,
    List.length_range, List.length_cons, List.append_nil, List.mem_append,
    List.mem_flatMap, List.mem_range, List.mem_cons, List.not_mem_nil,
    or_false] at hi
  rcases hi with (⟨seg, hseg, h | h | h | h | h | h⟩ | ⟨seg, hseg, h | h | h⟩) |
    ⟨seg, hseg, h | h | h⟩ <;> omega

theorem createCylinder_valid (sinq cosq : ℚ → ℚ) (piq radius height : ℚ)
    (segments : ℕ) (color : Vec3) :
    ∀ i ∈ (createCylinder sinq cosq piq radius height segments color).indices,
      i < (createCylinder sinq cosq piq radius height segments color).vertices.length := by
  intro i hi
  rw [createCylinder_vertices_length]
  exact createCylinder_indices_lt sinq cosq piq radius height segments color i hi

/-- Concatenating meshes with the source's index-rebasing (offset = vertex
count at the moment of concatenation) preserves index validity. -/
theorem mergeMesh_valid (m1v m2v : List Vertex) (m1i m2i : List ℕ)
    (h1 : ∀ i ∈ m1i, i < m1v.length) (h2 : ∀ i ∈ m2i, i < m2v.length) :
    ∀ i ∈ m1i ++ m2i.map (· + m1v.length), i < (m1v ++ m2v).length := by
  intro i hi
  rw [List.length_append]
  rcases List.mem_append.mp hi with h | h
  · exact lt_of_lt_of_le (h1 i h) (Nat.le_add_right _ _)
  · obtain ⟨j, hj, rfl⟩ := List.mem_map.mp h
    have := h2 j hj
    omega

theorem generateArm_valid (sinq cosq sqrtq : ℚ → ℚ) (piq : ℚ) (c : Cactus)
    (attachHeight angle armLength : ℚ) :
    ∀ i ∈ (c.generateArm sinq cosq sqrtq piq attachHeight angle armLength).indices,
      i < (c.generateArm sinq cosq sqrtq piq attachHeight angle armLength).vertices.length := by
  simp only [Cactus.generateArm]
  refine mergeMesh_valid _ _ _ _ ?_ ?_
  · intro i hi
    rw [List.length_map]
    exact createCylinder_valid _ _ _ _ _ _ _ i hi
  · intro i hi
    rw [List.length_map]
    exact createCylinder_valid _ _ _ _ _ _ _ i hi

theorem armStep_valid (sinq cosq sqrtq : ℚ → ℚ) (piq : ℚ) (c : Cactus)
    (actualHeight : ℚ) (acc : Mesh) (k : ℕ)
    (h : ∀ j ∈ acc.indices, j < acc.vertices.length) :
    ∀ j ∈ (Cactus.armStep sinq cosq sqrtq piq c actualHeight acc k).indices,
      j < (Cactus.armStep sinq cosq sqrtq piq c actualHeight acc k).vertices.length := by
  simp only [Cactus.armStep]
  exact mergeMesh_valid _ _ _ _ h (generateArm_valid sinq cosq sqrtq piq c _ _ _)

theorem foldl_armStep_valid (sinq cosq sqrtq : ℚ → ℚ) (piq : ℚ) (c : Cactus)
    (actualHeight : ℚ) :
    ∀ (l : List ℕ) (acc : Mesh),
      (∀ j ∈ acc.indices, j < acc.vertices.length) →
      ∀ j ∈ (l.foldl (Cactus.armStep sinq cosq sqrtq piq c actualHeight) acc).indices,
        j < (l.foldl (Cactus.armStep sinq cosq sqrtq piq c actualHeight) acc).vertices.length := by
  intro l
  induction l with
  | nil => intro acc h; exact h
  | cons x xs ih =>
    intro acc h
    rw [List.foldl_cons]
    exact ih _ (armStep_valid sinq cosq sqrtq piq c actualHeight acc x h)

/-- C5: every index of `Cactus::generateMesh()` is strictly below the merged
mesh's vertex count, for every config (any `numArms`, `segments`) and any
growth factor — each appended arm's indices being rebased by the combined
vertex count at the moment of concatenation. -/
theorem cactus_mesh_index_validity (sinq cosq sqrtq : ℚ → ℚ) (piq : ℚ)
    (c : Cactus) :
    ∀ i ∈ (c.generateMesh sinq cosq sqrtq piq).indices,
      i < (c.generateMesh sinq cosq sqrtq piq).vertices.length := by
  simp only [Cactus.generateMesh]
  apply foldl_armStep_valid
  intro i hi
  rw [List.length_map]
  exact createCylinder_valid _ _ _ _ _ _ _ i hi

/-- Witness: the merged mesh of a concrete one-arm, one-segment cactus has
index 0 in its index buffer, and 0 is below the vertex count. -/
theorem cactus_mesh_index_validity_witness :
    (0 : ℕ) ∈ (cactusSample.generateMesh (fun _ => 0) (fun _ => 0) (fun _ => 0) 0).indices ∧
    (0 : ℕ) < (cactusSample.generateMesh (fun _ => 0) (fun _ => 0) (fun _ => 0) 0).vertices.length :=
  ⟨by decide,
   cactus_mesh_index_validity (fun _ => 0) (fun _ => 0) (fun _ => 0) 0 cactusSample 0
     (by decide)⟩

/-- Witness for the sphere theorem at `segments = rings = 2`. -/
theorem sphere_mesh_counts_witness :
    (createSphere (fun _ => 0) (fun _ => 0) 0 1 2 2 ⟨1, 1, 1⟩).vertices.length = 9 ∧
    (createSphere (fun _ => 0) (fun _ => 0) 0 1 2 2 ⟨1, 1, 1⟩).indices.length = 24 ∧
    ∀ i ∈ (createSphere (fun _ => 0) (fun _ => 0) 0 1 2 2 ⟨1, 1, 1⟩).indices,
      i < 9 :=
  sphere_mesh_counts (fun _ => 0) (fun _ => 0) 0 1 ⟨1, 1, 1⟩ 2 2 (by decide) (by decide)

/-- The arm loop only appends vertices: the trunk block stays an unchanged
prefix of the combined buffer. -/
theorem foldl_armStep_take (sinq cosq sqrtq : ℚ → ℚ) (piq : ℚ) (c : Cactus)
    (actualHeight : ℚ) :
    ∀ (l : List ℕ) (acc : Mesh),
      (l.foldl (Cactus.armStep sinq cosq sqrtq piq c actualHeight) acc).vertices.take
        acc.vertices.length = acc.vertices := by
  intro l
  induction l with
  | nil => intro acc; exact List.take_length acc.vertices
  | cons x xs ih =>
    intro acc
    rw [List.foldl_cons]
    have hle : acc.vertices.length ≤
        (Cactus.armStep sinq cosq sqrtq piq c actualHeight acc x).vertices.length := by
      simp [Cactus.armStep]
    have hcut : ((xs.foldl (Cactus.armStep sinq cosq sqrtq piq c actualHeight)
          (Cactus.armStep sinq cosq sqrtq piq c actualHeight acc x)).vertices.take
          acc.vertices.length) =
        ((Cactus.armStep sinq cosq sqrtq piq c actualHeight acc x).vertices.take
          acc.vertices.length) := by
      rw [← ih (Cactus.armStep sinq cosq sqrtq piq c actualHeight acc x),
        List.take_take, Nat.min_eq_left hle]
    rw [hcut]
    simp only [Cactus.armStep]
    exact List.take_left _ _

/-- C9: `setGrowthFactor(f)` stores `f` verbatim — no clamping for any `f`,
in or out of `[0.1, 4.0]` (only `grow` clamps) — and a subsequent
`generateMesh()` scales the trunk by the unclamped factor: the trunk block
of the mesh is exactly the cylinder of radius `trunkRadius·f` and height
`height·f`, raised by half its height and moved to the world position. -/
theorem setGrowthFactor_unclamped (sinq cosq sqrtq : ℚ → ℚ) (piq : ℚ)
    (c : Cactus) (f : ℚ) :
    (c.setGrowthFactor f).growthFactor = f ∧
    ((c.setGrowthFactor f).generateMesh sinq cosq sqrtq piq).vertices.take
        (4 * c.config.segments + 6) =
      (createCylinder sinq cosq piq (c.config.trunkRadius * f) (c.config.height * f)
        c.config.segments c.config.color).vertices.map (fun v =>
          { v with position :=
              ⟨v.position.x, v.position.y + c.config.height * f * 0.5, v.position.z⟩ +
                c.config.position }) := by
  refine ⟨rfl, ?_⟩
  simp only [Cactus.generateMesh, Cactus.setGrowthFactor]
  have hlen : ((createCylinder sinq cosq piq (c.config.trunkRadius * f)
      (c.config.height * f) c.config.segments c.config.color).vertices.map
        (fun v => { v with position :=
          (⟨v.position.x, v.position.y + c.config.height * f * 0.5, v.position.z⟩ : Vec3) +
            c.config.position })).length = 4 * c.config.segments + 6 := by
    rw [List.length_map, createCylinder_vertices_length]
  rw [← hlen]
  exact foldl_armStep_take sinq cosq sqrtq piq _ _ _ ⟨_, _⟩

theorem emitScan_length (cfg : EmitterConfig) (rand : ℕ → ℚ) :
    ∀ (ps : List Particle) (k : ℕ), (emitScan cfg rand ps k).1.length = ps.length := by
  intro ps
  induction ps with
  | nil => intro k; rfl
  | cons p tl ih =>
    intro k
    by_cases h : p.isAlive <;> simp [emitScan, h, ih]

theorem emissionLoop_spec (cfg : EmitterConfig) (rand : ℕ → ℚ) :
    ∀ (n : ℕ) (acc : ℚ) (ps : List Particle) (k : ℕ), ⌈acc⌉.toNat ≤ n →
      (emissionLoop cfg rand acc ps k).1 < 1 ∧
      (emissionLoop cfg rand acc ps k).2.1.length = ps.length := by
  intro n
  induction n with
  | zero =>
    intro acc ps k hn
    have hlt : ¬ 1 ≤ acc := by
      intro hge
      have h1 : (1 : ℤ) ≤ ⌈acc⌉ := by
        exact_mod_cast Int.le_ceil_iff.mpr (by push_cast; linarith)
      omega
    rw [emissionLoop, dif_neg hlt]
    exact ⟨lt_of_not_le hlt, rfl⟩
  | succ m ih =>
    intro acc ps k hn
    by_cases hge : 1 ≤ acc
    · have h1 : (1 : ℤ) ≤ ⌈acc⌉ := by
        exact_mod_cast Int.le_ceil_iff.mpr (by push_cast; linarith)
      have hceil : ⌈acc - 1⌉ = ⌈acc⌉ - 1 := by
        simp [Int.ceil_sub_int acc 1]
      have hbound : ⌈acc - 1⌉.toNat ≤ m := by omega
      have h' := ih (acc - 1) (emitScan cfg rand ps k).1 (emitScan cfg rand ps k).2 hbound
      rw [emissionLoop, dif_pos hge]
      exact ⟨h'.1, h'.2.trans (emitScan_length cfg rand ps k)⟩
    · rw [emissionLoop, dif_neg hge]
      exact ⟨lt_of_not_le hge, rfl⟩

theorem emissionLoop_lt_one (cfg : EmitterConfig) (rand : ℕ → ℚ) (acc : ℚ)
    (ps : List Particle) (k : ℕ) : (emissionLoop cfg rand acc ps k).1 < 1 :=
  (emissionLoop_spec cfg rand ⌈acc⌉.toNat acc ps k le_rfl).1

theorem emissionLoop_length (cfg : EmitterConfig) (rand : ℕ → ℚ) (acc : ℚ)
    (ps : List Particle) (k : ℕ) :
    (emissionLoop cfg rand acc ps k).2.1.length = ps.length :=
  (emissionLoop_spec cfg rand ⌈acc⌉.toNat acc ps k le_rfl).2

theorem emissionLoop_of_lt (cfg : EmitterConfig) (rand : ℕ → ℚ) (acc : ℚ)
    (ps : List Particle) (k : ℕ) (h : acc < 1) :
    emissionLoop cfg rand acc ps k = (acc, ps, k) := by
  rw [emissionLoop]
  simp [dif_neg (not_le.mpr h)]

theorem update_preserves (rand : ℕ → ℚ) (dt : ℚ) (st : PSState) :
    (st.update rand dt).particles.length = st.particles.length ∧
    (st.update rand dt).config = st.config ∧
    (st.emissionAccumulator < 1 → (st.update rand dt).emissionAccumulator < 1) := by
  unfold PSState.update
  by_cases hguard : st.active = false ∧ aliveCount st.particles = 0
  · simp [hguard]
  · rw [if_neg hguard]
    simp only []
    by_cases ha : (if st.config.looping = false ∧ 0 < st.config.duration ∧
        st.config.duration < st.systemTime + dt then false else st.active) = true
    · rw [if_pos ha]
      refine ⟨?_, trivial, fun _ => ?_⟩
      · simp only [updateParticles, List.length_map]
        exact emissionLoop_length st.config rand _ st.particles st.rngCursor
      · exact emissionLoop_lt_one st.config rand _ st.particles st.rngCursor
    · rw [if_neg ha]
      exact ⟨by simp [updateParticles], trivial, fun h => h⟩

theorem stepParticle_alive (cfg : EmitterConfig) (dt : ℚ) (p : Particle) :
    (stepParticle cfg dt p).isAlive = true → p.isAlive = true := by
  by_cases h : p.isAlive = true
  · intro _
    exact h
  · rw [stepParticle, if_neg h]
    intro hc
    exact absurd hc h

theorem aliveCount_updateParticles_le (cfg : EmitterConfig) (dt : ℚ)
    (ps : List Particle) :
    aliveCount (updateParticles cfg dt ps) ≤ aliveCount ps := by
  unfold updateParticles aliveCount
  rw [List.countP_map]
  exact List.countP_mono_left (fun p _ h => stepParticle_alive cfg dt p h)

theorem update_aliveCount_le (rand : ℕ → ℚ) (dt : ℚ) (st : PSState)
    (hrate : st.config.emissionRate = 0) (hacc : st.emissionAccumulator < 1) :
    aliveCount (st.update rand dt).particles ≤ aliveCount st.particles := by
  unfold PSState.update
  by_cases hguard : st.active = false ∧ aliveCount st.particles = 0
  · simp [hguard]
  · rw [if_neg hguard]
    simp only []
    have hzero : st.emissionAccumulator + st.config.emissionRate * dt =
        st.emissionAccumulator := by
      rw [hrate]
      ring
    by_cases ha : (if st.config.looping = false ∧ 0 < st.config.duration ∧
        st.config.duration < st.systemTime + dt then false else st.active) = true
    · rw [if_pos ha, hzero,
        emissionLoop_of_lt st.config rand _ st.particles st.rngCursor hacc]
      exact aliveCount_updateParticles_le st.config dt st.particles
    · rw [if_neg ha]
      exact aliveCount_updateParticles_le st.config dt st.particles

theorem reachable_invariant {rand : ℕ → ℚ} {cfg : EmitterConfig} {st : PSState}
    (h : Reachable rand cfg st) :
    st.particles.length = cfg.maxParticles ∧ st.config = cfg ∧
      (cfg.emissionRate = 0 → st.emissionAccumulator < 1) := by
  induction h with
  | init =>
    refine ⟨init_particles_length _ _, rfl, fun _ => ?_⟩
    norm_num [PSState.init, PSState.fresh]
  | update st dt hst ih =>
    obtain ⟨h1, h2, h3⟩ := ih
    obtain ⟨u1, u2, u3⟩ := update_preserves rand dt st
    exact ⟨u1.trans h1, u2.trans h2, fun h0 => u3 (h3 h0)⟩
  | start st hst ih => simpa [PSState.start] using ih
  | stop st hst ih => simpa [PSState.stop] using ih

/-- C1: in every state reachable from `init` through any sequence of
`update`/`start`/`stop` calls, the alive-particle count never exceeds the
configured `maxParticles` pool capacity; and with `emissionRate = 0`,
every further `update(dt)` leaves the alive count non-increasing. -/
theorem particle_pool_conservation (rand : ℕ → ℚ) (cfg : EmitterConfig)
    (st : PSState) (h : Reachable rand cfg st) :
    aliveCount st.particles ≤ cfg.maxParticles ∧
    (cfg.emissionRate = 0 → ∀ dt : ℚ,
      aliveCount (st.update rand dt).particles ≤ aliveCount st.particles) := by
  obtain ⟨hlen, hcfg, hacc⟩ := reachable_invariant h
  constructor
  · calc aliveCount st.particles ≤ st.particles.length := List.countP_le_length _
      _ = cfg.maxParticles := hlen
  · intro h0 dt
    exact update_aliveCount_le rand dt st (by rw [hcfg]; exact h0) (hacc h0)

/-- Witness: a concrete zero-rate 4-slot system right after `init` obeys
both halves of the pool-conservation theorem. -/
theorem particle_pool_conservation_witness :
    aliveCount (PSState.fresh.init zeroRateConfig).particles ≤ 4 ∧
    aliveCount ((PSState.fresh.init zeroRateConfig).update (fun _ => 0) 1).particles ≤
      aliveCount (PSState.fresh.init zeroRateConfig).particles :=
  ⟨(particle_pool_conservation (fun _ => 0) zeroRateConfig _ Reachable.init).1,
   (particle_pool_conservation (fun _ => 0) zeroRateConfig _ Reachable.init).2 rfl 1⟩

end SandySnowGlobe
